import Mathlib

/-!
Verification of the nakodx-file-retriever extension (src/src/extension.ts).

The development shallowly embeds the cache subsystem, the JSON message
extraction, the CLI result interpretation and the request coalescer of the
source file.  JavaScript strings are modelled as Lean `String`, JS numbers
occurring as timestamps and exit codes as `Nat`/`Int`, optional / possibly
absent JSON fields as `Option`, and JS truthiness of a string value by
`jsTruthy` (a string is truthy exactly when it is non-empty).
-/

/-- Truthiness of an optional JS string: `undefined`/absent and the empty
string are falsy, every other string is truthy. -/
def jsTruthy : Option String → Bool
  | some s => !s.isEmpty
  | none => false

/-- Model of the JS idiom `a || b` for an optional string `a` with string
fallback `b`: the fallback is used when `a` is absent or empty. -/
def jsOrStr (o : Option String) (d : String) : String :=
  match o with
  | some s => if s.isEmpty then d else s
  | none => d

/-- Model of JS `Array.prototype.join(sep)` on a list of strings. -/
def jsJoin (sep : String) : List String → String
  | [] => ""
  | [x] => x
  | x :: y :: xs => x ++ sep ++ jsJoin sep (y :: xs)

/-- ASCII whitespace, the relevant part of the character class trimmed by JS
`String.prototype.trim` (the payloads modelled here are ASCII). -/
def jsWhitespace (c : Char) : Bool :=
  c == ' ' || c == '\t' || c == '\n' || c == '\r'

/-- Model of JS `String.prototype.trim`: drop leading and trailing
whitespace. -/
def jsTrim (s : String) : String :=
  String.mk (((s.data.dropWhile jsWhitespace).reverse.dropWhile jsWhitespace).reverse)

/-- Model of JS `String.prototype.startsWith`, via the character list. -/
def jsStartsWith (s p : String) : Bool := p.data.isPrefixOf s.data

/-- Model of JS `String.prototype.endsWith`, via the character list. -/
def jsEndsWith (s p : String) : Bool := p.data.isSuffixOf s.data

/-- One entry of a retrieve payload's `result.messages` array
(extension.ts line 44: `messages?: Array of (fileName?, problem?) or string`).
A `message` field is also modelled because `buildHumanMessage` reads it as a
fallback (line 309). -/
structure SfMessageEntry where
  fileName : Option String
  problem : Option String
  message : Option String
deriving DecidableEq, Repr

/-- The `result.messages` field of a payload: absent, an array of objects, or
a plain string (extension.ts line 44). -/
inductive MessagesField where
  | absent : MessagesField
  | arr (entries : List SfMessageEntry) : MessagesField
  | str (s : String) : MessagesField
deriving DecidableEq, Repr

/-- One entry of a retrieve payload's `result.files` array
(extension.ts line 43).  The `problem` field is included because
`buildHumanMessage` reads `failed?.problem` (line 319). -/
structure SfFile where
  filePath : String
  state : Option String
  error : Option String
  problem : Option String
  fullName : Option String
  type : Option String
deriving DecidableEq, Repr

/-- The JSON payload shape consumed by `buildHumanMessage` and `runSfJson`
(extension.ts lines 39-53): top-level `message`, `code`, `context`, `status`,
`exitCode`, plus the nested `result.messages` and `result.files`. -/
structure SfJson where
  message : Option String
  code : Option String
  context : Option String
  status : Option Int
  exitCode : Option Int
  resultMessages : MessagesField
  resultFiles : List SfFile
deriving DecidableEq, Repr

/-- The payload stringification of one messages entry when the JS code falls
back to the object itself (`m.problem || m.message || m` followed by
`join`, extension.ts line 309): a plain JS object stringifies to
"[object Object]". -/
def entryFallback (m : SfMessageEntry) : String :=
  if jsTruthy m.problem then m.problem.getD ""
  else if jsTruthy m.message then m.message.getD ""
  else "[object Object]"

/-- Embedding of `buildHumanMessage` (extension.ts lines 297-324): priority 1
is a truthy top-level `message` (with truthy `code` appended in brackets),
priority 2 the `result.messages` field, priority 3 the first failed file,
priority 4 a generic message from a truthy top-level `code`. -/
def buildHumanMessage (j : SfJson) : Option String :=
  if jsTruthy j.message then
    if jsTruthy j.code then some (j.message.getD "" ++ " [" ++ j.code.getD "" ++ "]")
    else some (j.message.getD "")
  else
    let p2 : Option String :=
      match j.resultMessages with
      | .arr (first :: rest) =>
          if jsTruthy first.problem then some (first.problem.getD "")
          else
            let joined := jsJoin "; " ((first :: rest).map entryFallback)
            if joined.isEmpty then none else some joined
      | .arr [] => none
      | .str s => if (jsTrim s).isEmpty then none else some (jsTrim s)
      | .absent => none
    match p2 with
    | some m => some m
    | none =>
        match j.resultFiles.find? (fun f => f.state == some "Failed" || jsTruthy f.error) with
        | some failed =>
            if jsTruthy failed.error then some (failed.error.getD "")
            else if jsTruthy failed.problem then some (failed.problem.getD "")
            else if jsTruthy j.code then some ("Command failed [" ++ j.code.getD "" ++ "]")
            else none
        | none =>
            if jsTruthy j.code then some ("Command failed [" ++ j.code.getD "" ++ "]")
            else none

/-- The structured error built by `runSfJson` and `retrieveSelectedFile`
(class `SfCliError`, extension.ts lines 73-86). -/
structure SfCliError where
  message : String
  codeStr : Option String
  context : Option String
  status : Option Int
  exitCode : Option Int
  stderr : Option String
  rawJson : Option SfJson
deriving DecidableEq, Repr

/-- Text of a process exit code as interpolated by JS (a `null` exit code
prints as "null"). -/
def exitCodeText : Option Int → String
  | some n => toString n
  | none => "null"

/-- Embedding of the `close` handler of `runSfJson` (extension.ts lines
253-292): given the argument list, the process exit code, the JSON parse of
standard output (none when unparseable) and the accumulated standard error
text, produce the settled outcome of the returned promise. -/
def runSfJsonClose (args : List String) (code : Option Int) (out : Option SfJson)
    (errTxt : String) : Except SfCliError SfJson :=
  if code ≠ some 0 then
    match out with
    | some json =>
        .error
          { message := jsOrStr (buildHumanMessage json)
              (if errTxt.isEmpty then
                "sf " ++ jsJoin " " args ++ " failed with exit " ++ exitCodeText code
               else errTxt)
            codeStr := json.code
            context := json.context
            status := json.status
            exitCode := if code = none then json.exitCode else code
            stderr := some errTxt
            rawJson := some json }
    | none =>
        .error
          { message := if errTxt.isEmpty then
                "sf " ++ jsJoin " " args ++ " failed with exit " ++ exitCodeText code
              else errTxt
            codeStr := none, context := none, status := none
            exitCode := code, stderr := some errTxt, rawJson := none }
  else
    match out with
    | none =>
        .error
          { message := "Invalid JSON from sf " ++ jsJoin " " args
            codeStr := none, context := none, status := none
            exitCode := none, stderr := none, rawJson := none }
    | some json =>
        match json.status with
        | some s =>
            if s ≠ 0 then
              .error
                { message := jsOrStr (buildHumanMessage json) "Command failed"
                  codeStr := json.code
                  context := json.context
                  status := some s
                  exitCode := none
                  stderr := some errTxt
                  rawJson := some json }
            else .ok json
        | none => .ok json

/-- Embedding of `collectRetrieveProblems` (extension.ts lines 655-682):
problem strings from the `result.messages` array (or trimmed string), then
failed-file strings from `result.files`, then — only when nothing was
collected — the top-level human message. -/
def collectRetrieveProblems (j : SfJson) : List String :=
  let fromMsgs : List String :=
    match j.resultMessages with
    | .arr entries =>
        entries.filterMap (fun m =>
          if jsTruthy m.problem then
            some (if jsTruthy m.fileName then
                    m.problem.getD "" ++ " (" ++ m.fileName.getD "" ++ ")"
                  else m.problem.getD "")
          else none)
    | .str s => if (jsTrim s).isEmpty then [] else [jsTrim s]
    | .absent => []
  let fromFiles : List String :=
    j.resultFiles.filterMap (fun f =>
      if f.state == some "Failed" && jsTruthy f.error then
        some (if jsTruthy f.fullName && jsTruthy f.type then
                f.error.getD "" ++ " [" ++ f.type.getD "" ++ " " ++ f.fullName.getD "" ++ "]"
              else f.error.getD "")
      else none)
  let out := fromMsgs ++ fromFiles
  match out with
  | [] =>
      match buildHumanMessage j with
      | some t => if t.isEmpty then [] else [t]
      | none => []
  | _ => out

/-- Embedding of the result-inspection step of `retrieveSelectedFile`
(extension.ts lines 622-628): after a successful `runSfJson`, collect the
logical problems and throw an `SfCliError` carrying the first problem and
the raw payload when any exist. -/
def retrieveSelectedFileCheck (j : SfJson) : Except SfCliError Unit :=
  match collectRetrieveProblems j with
  | [] => .ok ()
  | first :: _ =>
      .error
        { message := first
          codeStr := none, context := none, status := none
          exitCode := none, stderr := none, rawJson := some j }

/-- ASCII alphanumeric test, the character class of the regex
`[^a-zA-Z0-9]` in `getMetadataItemsCachePath` (extension.ts line 146). -/
def isAsciiAlnum (c : Char) : Bool :=
  ('a' ≤ c && c ≤ 'z') || ('A' ≤ c && c ≤ 'Z') || ('0' ≤ c && c ≤ '9')

/-- The `safeMetadataType` sanitization of `getMetadataItemsCachePath`
(extension.ts line 146): every character outside `[a-zA-Z0-9]` is replaced
with an underscore. -/
def safeMetadataType (metadataType : String) : String :=
  String.mk (metadataType.data.map (fun c => if isAsciiAlnum c then c else '_'))

/-- File name used by `getMetadataTypesCachePath` (extension.ts line 142). -/
def getMetadataTypesCacheName (orgId : String) : String :=
  "metadata-types-" ++ (orgId ++ ".json")

/-- The per-org file-name start used both by `getMetadataItemsCachePath`
(line 147) and by the deletion filter of `deleteItemsCache` (line 739). -/
def itemsCacheNameStart (orgId : String) : String :=
  "metadata-items-" ++ (orgId ++ "-")

/-- File name used by `getMetadataItemsCachePath` (extension.ts lines
145-148). -/
def getMetadataItemsCacheName (orgId metadataType : String) : String :=
  itemsCacheNameStart orgId ++ (safeMetadataType metadataType ++ ".json")

/-- Full path of an item-list cache file: `path.join(cacheDirectory, name)`
(extension.ts line 147). -/
def getMetadataItemsCachePath (dir orgId metadataType : String) : String :=
  dir ++ "/" ++ getMetadataItemsCacheName orgId metadataType

/-- Embedding of `isFresh` (extension.ts lines 150-153).  The source checks
`if (!ts) return true`, so an absent timestamp AND a timestamp equal to 0
(both falsy in JS) are treated as always fresh; otherwise the entry is fresh
exactly when `Date.now() - ts < TTL_MS`. -/
def isFresh (ttlMs : Int) (now : Nat) (ts : Option Nat) : Bool :=
  match ts with
  | none => true
  | some t => if t = 0 then true else ((now : Int) - (t : Int)) < ttlMs

/-- Modelled from the spec's words (§4.3 freshness, claim C2): an entry is
fresh iff it has no recorded write timestamp or `now - writtenAt < TTL`.
Used only to compare the claim with the source's `isFresh`. -/
def isFreshClaimed (ttlMs : Int) (now : Nat) (ts : Option Nat) : Bool :=
  match ts with
  | none => true
  | some t => ((now : Int) - (t : Int)) < ttlMs

/-- Modelled from the spec's words (claim C4, priority-1 rule): a payload
with a top-level message field yields that message, with the code appended
in brackets whenever a code field is also present.  Used only to compare the
claim with the source's `buildHumanMessage`. -/
def buildHumanMessageClaimedTop (j : SfJson) : Option String :=
  match j.message with
  | some m =>
      match j.code with
      | some c => some (m ++ " [" ++ c ++ "]")
      | none => some m
  | none => none

/-- Modelled from the spec's words (claim C9, priority-2 rule), for payloads
with no top-level message field: if `result.messages` is a non-empty array
of objects, the first entry's problem field when present; if no entry has a
problem field, all entries' problem (falling back to message, falling back
to stringifying the entry) joined with "; "; if it is a non-empty string,
that string trimmed.  The case the claim leaves unspecified (first entry
without a problem field but some later entry with one) is mapped to `none`.
Used only to compare the claim with the source's `buildHumanMessage`. -/
def buildHumanMessageClaimedMsgs (j : SfJson) : Option String :=
  match j.resultMessages with
  | .arr (first :: rest) =>
      match first.problem with
      | some p => some p
      | none =>
          if (first :: rest).all (fun m => m.problem.isNone) then
            some (jsJoin "; " ((first :: rest).map (fun m =>
              match m.problem with
              | some p => p
              | none =>
                  match m.message with
                  | some s => s
                  | none => "[object Object]")))
          else none
  | .arr [] => none
  | .str s => if s.isEmpty then none else some (jsTrim s)
  | .absent => none

/-- One metadata type of a catalog (extension.ts lines 9-13). -/
structure MetadataType where
  xmlName : String
  directoryName : Option String
  childXmlNames : Option (List String)
deriving DecidableEq, Repr

/-- One metadata item of an item list (extension.ts lines 15-20). -/
structure MetadataItem where
  fullName : String
  fileName : Option String
  type : Option String
  createdDate : Option String
deriving DecidableEq, Repr

/-- A cached type catalog (extension.ts lines 22-26). -/
structure CachedMetadataTypes where
  orgId : String
  metadataTypes : List MetadataType
  ts : Option Nat
deriving DecidableEq, Repr

/-- A cached item list (extension.ts lines 28-33). -/
structure CachedMetadataItems where
  orgId : String
  metadataType : String
  items : List MetadataItem
  ts : Option Nat
deriving DecidableEq, Repr

/-- Content of one on-disk cache file: either partition's entry shape. -/
inductive CacheFileData where
  | typesFile (c : CachedMetadataTypes) : CacheFileData
  | itemsFile (c : CachedMetadataItems) : CacheFileData
deriving DecidableEq, Repr

/-- Association-list read, the model of `Map.prototype.get` and of reading
the file stored under a name. -/
def mapGet {α : Type} (m : List (String × α)) (k : String) : Option α :=
  (m.find? (fun kv => kv.1 == k)).map (fun kv => kv.2)

/-- Association-list write, the model of `Map.prototype.set` and of
`fs.writeFile` (an existing value under the same key is replaced). -/
def mapSet {α : Type} (m : List (String × α)) (k : String) (v : α) :
    List (String × α) :=
  (k, v) :: m.filter (fun kv => kv.1 != k)

/-- The mutable state of the cache layer (extension.ts lines 62-64): the
type-catalog memory tier, the item-list memory tier keyed by
`orgId:metadataType`, the cache directory contents keyed by file name, and
the current `TTL_MS` (line 60). -/
structure CacheState where
  metadataTypesCache : Option CachedMetadataTypes
  metadataItemsCache : List (String × CachedMetadataItems)
  diskFiles : List (String × CacheFileData)
  ttlMs : Int
deriving DecidableEq, Repr

/-- The configuration section `nakodx-file-retriever` as read through
`config.get(key, default)`: an absent option means the default applies. -/
structure WorkspaceConfig where
  enableCache : Option Bool
  cacheTtlDays : Option Int
  autoOpenAfterDownload : Option Bool
deriving DecidableEq, Repr

/-- Embedding of `applyConfigSettings` (extension.ts lines 531-561):
clamp `cacheTtlDays` to [1, 30] (default 30), set `TTL_MS`, and when caching
is disabled clear both memory tiers and unlink every directory entry whose
name starts with `metadata-types-` or `metadata-items-`. -/
def applyConfigSettings (config : WorkspaceConfig) (s : CacheState) : CacheState :=
  let days : Int := min 30 (max 1 (config.cacheTtlDays.getD 30))
  let s1 : CacheState := { s with ttlMs := days * 86400000 }
  let cachingEnabled := config.enableCache.getD true
  if cachingEnabled then s1
  else
    { s1 with
      metadataTypesCache := none
      metadataItemsCache := []
      diskFiles := s1.diskFiles.filter (fun f =>
        !(jsStartsWith f.1 "metadata-types-" || jsStartsWith f.1 "metadata-items-")) }

/-- Embedding of `deleteItemsCache` for a resolved current org
(extension.ts lines 727-744): remove every memory entry whose `orgId`
matches, and unlink every directory entry whose name starts with
`metadata-items-<org>-` and ends with `.json`. -/
def deleteItemsCache (currentOrgId : String) (s : CacheState) : CacheState :=
  { s with
    metadataItemsCache :=
      s.metadataItemsCache.filter (fun kv => !(kv.2.orgId == currentOrgId))
    diskFiles := s.diskFiles.filter (fun f =>
      !(jsStartsWith f.1 (itemsCacheNameStart currentOrgId) && jsEndsWith f.1 ".json")) }

/-- Embedding of the item-list cache write path of `getMetadataItems`
(extension.ts lines 508-516 with `saveMetadataItemsToDisk`, lines 192-199):
store the stamped entry in the memory tier under `orgId:metadataType` and
write it to disk under the sanitized file name; the disk copy is re-stamped
with a second `Date.now()` (`memNow` and `diskNow`). -/
def storeFetchedItems (orgId metadataType : String) (items : List MetadataItem)
    (memNow diskNow : Nat) (s : CacheState) : CacheState :=
  let cacheKey := orgId ++ ":" ++ metadataType
  let cacheData : CachedMetadataItems :=
    { orgId := orgId, metadataType := metadataType, items := items, ts := some memNow }
  { s with
    metadataItemsCache := mapSet s.metadataItemsCache cacheKey cacheData
    diskFiles := mapSet s.diskFiles (getMetadataItemsCacheName orgId metadataType)
      (.itemsFile { cacheData with ts := some diskNow }) }

/-- A well-formed cache file name: one produced by either partition's path
derivation. -/
def isCacheFileName (name : String) : Prop :=
  (∃ orgId, name = getMetadataTypesCacheName orgId) ∨
  (∃ orgId metadataType, name = getMetadataItemsCacheName orgId metadataType)

/-- Result of one external `sf org list metadata` invocation: the resolved
item list or the rejection message of the promise. -/
inductive FetchResult where
  | ok (items : List MetadataItem) : FetchResult
  | err (msg : String) : FetchResult
deriving DecidableEq, Repr

/-- State of the request coalescer for one fixed item-list cache key, with
caching enabled (extension.ts lines 68 and 501-527).  Promises created for
the key are numbered 0, 1, ...; `inflight` is the `inflightItems` map entry
for the key, `spawned` counts the external CLI invocations issued, `settled`
records the outcome of each invocation once its promise settles,
`callerPromise` records which promise each caller ends up awaiting, `owner`
records which caller created each promise (and so holds the
`try/finally` of lines 523-527), and `done` marks callers whose `finally`
already ran. -/
structure CoSt where
  inflight : Option Nat
  spawned : Nat
  settled : Nat → Option FetchResult
  callerPromise : Nat → Option Nat
  owner : Nat → Option Nat
  done : Nat → Bool

/-- Initial coalescer state: no in-flight promise, no invocation issued. -/
def coInit : CoSt :=
  { inflight := none, spawned := 0, settled := fun _ => none
    callerPromise := fun _ => none, owner := fun _ => none, done := fun _ => false }

/-- Events of the coalescer for the fixed key: `call c` is caller `c`
executing the synchronous block of extension.ts lines 502-522 after its
cache miss (the check of the in-flight map, and on absence the spawn of the
CLI process plus the registration of the new promise — no suspension point
separates these in the source); `settle r` is the in-flight fetch promise
settling with result `r`; `cleanup c` is caller `c` running the `finally`
of line 526 after its awaited promise settled. -/
inductive CoEv where
  | call (c : Nat) : CoEv
  | settle (r : FetchResult) : CoEv
  | cleanup (c : Nat) : CoEv

/-- Small-step semantics of the coalescer, one step per event.  `join` and
`spawn` are the two branches of the `call` block: line 502 returns the
registered promise when present, otherwise lines 504-522 issue the
invocation and register the new promise.  `settle` settles a spawned,
still-pending promise.  `cleanup` is the one-shot unconditional
`inflightItems.delete` of the owner's `finally` (line 526), which can only
run after the owner's awaited promise settled. -/
inductive CoStep : CoSt → CoEv → CoSt → Prop where
  | join (s : CoSt) (c p : Nat) (h : s.inflight = some p) :
      CoStep s (.call c)
        { s with callerPromise := Function.update s.callerPromise c (some p) }
  | spawn (s : CoSt) (c : Nat) (h : s.inflight = none) :
      CoStep s (.call c)
        { inflight := some s.spawned
          spawned := s.spawned + 1
          settled := s.settled
          callerPromise := Function.update s.callerPromise c (some s.spawned)
          owner := Function.update s.owner s.spawned (some c)
          done := s.done }
  | settle (s : CoSt) (p : Nat) (r : FetchResult) (hp : p < s.spawned)
      (hu : s.settled p = none) :
      CoStep s (.settle r) { s with settled := Function.update s.settled p (some r) }
  | cleanup (s : CoSt) (c p : Nat) (hc : s.owner p = some c) (hd : s.done c = false)
      (hs : (s.settled p).isSome = true) :
      CoStep s (.cleanup c)
        { s with inflight := none, done := Function.update s.done c true }

/-- A run of the coalescer: the list of events relates the start state to
the end state. -/
inductive CoTrace : CoSt → List CoEv → CoSt → Prop where
  | nil (s : CoSt) : CoTrace s [] s
  | cons (s t u : CoSt) (e : CoEv) (es : List CoEv)
      (h1 : CoStep s e t) (h2 : CoTrace t es u) : CoTrace s (e :: es) u

/-- The result a caller observes: the settlement of the promise it awaits. -/
def received (s : CoSt) (c : Nat) : Option FetchResult :=
  (s.callerPromise c).bind s.settled

/-- Invariant of the coalescer: bookkeeping bounds, every pending spawned
invocation is the registered one, and an owner whose promise settled but
whose `finally` has not yet run still has its own promise registered. -/
def CoInv (s : CoSt) : Prop :=
  (∀ p r, s.settled p = some r → p < s.spawned) ∧
  (∀ c p, s.owner p = some c → p < s.spawned) ∧
  (∀ p, s.inflight = some p → p < s.spawned) ∧
  (∀ p, p < s.spawned → (s.settled p).isSome = true ∨ s.inflight = some p) ∧
  (∀ c p, s.owner p = some c → s.done c = false → (s.settled p).isSome = true →
    s.inflight = some p)

/-- Outcome of the synchronous coalescing block for one caller: the caller
either returned the already-registered promise (line 502) or started its own
fetch (lines 504-520). -/
inductive CoalesceOutcome where
  | joined (p : Nat) : CoalesceOutcome
  | started (p : Nat) : CoalesceOutcome
deriving DecidableEq, Repr

/-- Pure embedding of extension.ts lines 502-522 with the caching flag
explicit: the in-flight lookup of line 502 is guarded only by the presence
of a cache key, while the registration of line 522 is additionally guarded
by `cachingEnabled`.  `freshId` names the promise a spawning caller would
create. -/
def coalesceEntry (cachingEnabled : Bool) (cacheKey : Option String)
    (inflight : List (String × Nat)) (freshId : Nat) :
    CoalesceOutcome × List (String × Nat) :=
  match cacheKey with
  | some k =>
      match mapGet inflight k with
      | some p => (.joined p, inflight)
      | none =>
          if cachingEnabled then (.started freshId, mapSet inflight k freshId)
          else (.started freshId, inflight)
  | none => (.started freshId, inflight)

/-- Modelled from the spec's words (claim C8): with caching disabled, a call
never returns an existing in-flight promise and always starts its own fetch.
Used only to refute the claim against `coalesceEntry`. -/
def coalescingBypassedClaim : Prop :=
  ∀ (cacheKey : Option String) (inflight : List (String × Nat)) (freshId : Nat),
    (coalesceEntry false cacheKey inflight freshId).1 = CoalesceOutcome.started freshId

/-- The message of a rejected `runSfJson` promise, if it rejected. -/
def errMessageOf : Except SfCliError SfJson → Option String
  | .error e => some e.message
  | .ok _ => none

/-- The payload of the C4 test scenario:
`{"status":1,"message":"INVALID_TYPE","code":"INVALID_TYPE"}`. -/
def invalidTypeJson : SfJson :=
  { message := some "INVALID_TYPE", code := some "INVALID_TYPE", context := none
    status := some 1, exitCode := none, resultMessages := .absent, resultFiles := [] }

/-- The payload of the C5 test scenario: exit 0, status 0, and
`files:[{state:"Failed", error:"E1", fullName:"Foo", type:"ApexClass"}]`. -/
def retrieveFailedJson : SfJson :=
  { message := none, code := none, context := none
    status := some 0, exitCode := none, resultMessages := .absent
    resultFiles := [{ filePath := "classes/Foo.cls", state := some "Failed"
                      error := some "E1", problem := none
                      fullName := some "Foo", type := some "ApexClass" }] }

/-- Memory entry for type A under org 00Dxx in the C6 test scenario. -/
def entryA : CachedMetadataItems :=
  { orgId := "00Dxx", metadataType := "A", items := [], ts := none }

/-- Memory entry for type C under a different org in the C6 test scenario. -/
def entryC : CachedMetadataItems :=
  { orgId := "00Dyy", metadataType := "C", items := [], ts := none }

/-- Disk entry for type B under org 00Dxx in the C6 test scenario. -/
def entryB : CachedMetadataItems :=
  { orgId := "00Dxx", metadataType := "B", items := [], ts := none }

/-- Prior cache state of the C6 test scenario: disk files for types A and B
under org 00Dxx, memory entries for A (org 00Dxx) and C (another org). -/
def sampleCacheState : CacheState :=
  { metadataTypesCache := none
    metadataItemsCache := [("00Dxx:A", entryA), ("00Dyy:C", entryC)]
    diskFiles := [(getMetadataItemsCacheName "00Dxx" "A", .itemsFile entryA),
                  (getMetadataItemsCacheName "00Dxx" "B", .itemsFile entryB)]
    ttlMs := 2592000000 }

/-- Final coalescer state of the C1 witness run: two callers coalesce on
promise 0, which settles with a rejection. -/
def coWitnessEnd : CoSt :=
  { inflight := some 0
    spawned := 1
    settled := Function.update (fun _ => none) 0 (some (FetchResult.err "boom"))
    callerPromise := Function.update (Function.update (fun _ => none) 0 (some 0)) 1 (some 0)
    owner := Function.update (fun _ => none) 0 (some 0)
    done := fun _ => false }

theorem jsStartsWith_append (p r : String) : jsStartsWith (p ++ r) p = true := by
  simp [jsStartsWith, String.data_append, List.isPrefixOf_iff_prefix]

theorem jsEndsWith_append (r p : String) : jsEndsWith (r ++ p) p = true := by
  simp [jsEndsWith, String.data_append, List.isSuffixOf_iff_suffix]

theorem strAppend_ne_empty_left (a b : String) (h : a ≠ "") : a ++ b ≠ "" := by
  intro hab
  have hdata : a.data ++ b.data = ([] : List Char) := by
    have hd := congrArg String.data hab
    rwa [String.data_append] at hd
  exact h (String.ext (List.append_eq_nil.mp hdata).1)

theorem find?_filter_ne {α : Type} (m : List (String × α)) (k k' : String)
    (h : k' ≠ k) :
    List.find? (fun kv => kv.1 == k') (m.filter (fun kv => kv.1 != k)) =
      List.find? (fun kv => kv.1 == k') m := by
  have hkk : (k == k') = false := beq_eq_false_iff_ne.mpr (Ne.symm h)
  induction m with
  | nil => rfl
  | cons hd tl ih =>
      by_cases hk : hd.1 = k
      · simp [List.filter_cons, hk, List.find?_cons, hkk, ih]
      · by_cases hp : hd.1 = k'
        · simp [List.filter_cons, hk, List.find?_cons, hp, h]
        · have hne : (hd.1 == k') = false := beq_eq_false_iff_ne.mpr hp
          simp [List.filter_cons, hk, List.find?_cons, hne, ih]

theorem mapGet_set_self {α : Type} (m : List (String × α)) (k : String) (v : α) :
    mapGet (mapSet m k v) k = some v := by
  simp [mapGet, mapSet, List.find?_cons]

theorem mapGet_set_ne {α : Type} (m : List (String × α)) (k k' : String) (v : α)
    (h : k' ≠ k) : mapGet (mapSet m k v) k' = mapGet m k' := by
  have hne : (k == k') = false := beq_eq_false_iff_ne.mpr (Ne.symm h)
  simp [mapGet, mapSet, List.find?_cons, hne, find?_filter_ne m k k' h]

theorem cacheName_startsWith (n : String) (h : isCacheFileName n) :
    (jsStartsWith n "metadata-types-" || jsStartsWith n "metadata-items-") = true := by
  rcases h with ⟨org, rfl⟩ | ⟨org, ty, rfl⟩
  · rw [getMetadataTypesCacheName, jsStartsWith_append]
    rfl
  · have hshape : getMetadataItemsCacheName org ty =
        "metadata-items-" ++ ((org ++ "-") ++ (safeMetadataType ty ++ ".json")) := by
      rw [getMetadataItemsCacheName, itemsCacheNameStart, String.append_assoc]
    rw [hshape, jsStartsWith_append, Bool.or_true]

theorem cacheName_endsWith_json (n : String) (h : isCacheFileName n) :
    jsEndsWith n ".json" = true := by
  rcases h with ⟨org, rfl⟩ | ⟨org, ty, rfl⟩
  · rw [getMetadataTypesCacheName, ← String.append_assoc]
    exact jsEndsWith_append _ _
  · rw [getMetadataItemsCacheName, ← String.append_assoc]
    exact jsEndsWith_append _ _

theorem jsTruthy_getD_ne_empty (o : Option String) (h : jsTruthy o = true) :
    o.getD "" ≠ "" := by
  cases o with
  | none => simp [jsTruthy] at h
  | some s =>
      simp only [jsTruthy, Bool.not_eq_true'] at h
      simp only [Option.getD]
      intro hs
      rw [hs] at h
      exact absurd h (by decide)

theorem entryFallback_ne_empty (m : SfMessageEntry) : entryFallback m ≠ "" := by
  unfold entryFallback
  by_cases h1 : jsTruthy m.problem = true
  · rw [if_pos h1]; exact jsTruthy_getD_ne_empty _ h1
  · rw [if_neg h1]
    by_cases h2 : jsTruthy m.message = true
    · rw [if_pos h2]; exact jsTruthy_getD_ne_empty _ h2
    · rw [if_neg h2]; decide

theorem jsJoin_ne_empty (sep x : String) (xs : List String) (h : x ≠ "") :
    jsJoin sep (x :: xs) ≠ "" := by
  cases xs with
  | nil => exact h
  | cons y ys =>
      show x ++ sep ++ jsJoin sep (y :: ys) ≠ ""
      exact strAppend_ne_empty_left _ _ (strAppend_ne_empty_left _ _ h)

/-- Claim C2 counterexample: an entry with the recorded write timestamp 0 is
treated as always fresh by the source (`!ts` is true for `ts = 0`), while
the claim's rule `now - writtenAt < TTL` makes it stale once `now ≥ TTL`:
at `now = TTL = 86400000` the source says fresh and the claim says stale. -/
theorem isFresh_zero_ts_counterexample :
    isFresh 86400000 86400000 (some 0) = true ∧
    isFreshClaimed 86400000 86400000 (some 0) = false := by
  exact ⟨rfl, by decide⟩

/-- Claim C2 (amended): an entry with no recorded write timestamp, or with
the (falsy) timestamp 0, is always fresh; an entry with a nonzero recorded
timestamp is fresh exactly when `now - writtenAt < TTL`, so it becomes stale
exactly when `now - writtenAt ≥ TTL` and never earlier. -/
theorem isFresh_ttl_window (ttl : Int) (now t : Nat) (h : t ≠ 0) :
    (isFresh ttl now (some t) = true ↔ (now : Int) - (t : Int) < ttl) ∧
    isFresh ttl now none = true ∧
    isFresh ttl now (some 0) = true := by
  refine ⟨?_, rfl, rfl⟩
  simp [isFresh, h]

/-- Witness for `isFresh_ttl_window` at TTL 10, now 5, timestamp 3. -/
theorem isFresh_ttl_window_witness :
    (3 : Nat) ≠ 0 ∧
    ((isFresh 10 5 (some 3) = true ↔ (5 : Int) - (3 : Int) < 10) ∧
      isFresh 10 5 none = true ∧ isFresh 10 5 (some 0) = true) :=
  ⟨by decide, isFresh_ttl_window 10 5 3 (by decide)⟩

/-- Claim C4 counterexample: for the payload with the present but empty
top-level message field `{"message":"","code":"X"}` the source's
`buildHumanMessage` falls through (the empty string is falsy) and produces
the priority-4 message `"Command failed [X]"`, while the claim's rule
produces `"" ++ " [X]"`. -/
theorem buildHumanMessage_empty_message_counterexample :
    (buildHumanMessage
        { message := some "", code := some "X", context := none, status := none
          exitCode := none, resultMessages := .absent, resultFiles := [] } =
      some "Command failed [X]") ∧
    (buildHumanMessageClaimedTop
        { message := some "", code := some "X", context := none, status := none
          exitCode := none, resultMessages := .absent, resultFiles := [] } =
      some " [X]") ∧
    ("Command failed [X]" : String) ≠ " [X]" := by
  refine ⟨rfl, rfl, by decide⟩

/-- Claim C4 (amended): for every payload with a non-empty top-level message
field, `buildHumanMessage` returns that message, with the top-level code
appended in brackets when a non-empty code field is also present; and in the
scenario where the external tool exits 0 with payload
`{"status":1,"message":"INVALID_TYPE","code":"INVALID_TYPE"}`, `runSfJson`
rejects and the caller receives the message `"INVALID_TYPE [INVALID_TYPE]"`. -/
theorem buildHumanMessage_top_message (j : SfJson) (m : String)
    (hm : j.message = some m) (hne : m ≠ "") :
    buildHumanMessage j =
      some (match j.code with
            | some c => if c = "" then m else m ++ " [" ++ c ++ "]"
            | none => m) ∧
    errMessageOf (runSfJsonClose ["org", "list", "metadata-types"] (some 0)
        (some invalidTypeJson) "") = some "INVALID_TYPE [INVALID_TYPE]" := by
  constructor
  · have hemp : m.isEmpty = false := by
      cases hcm : m.isEmpty
      · rfl
      · exact absurd ((String.isEmpty_iff m).mp hcm) hne
    cases hc : j.code with
    | none => simp [buildHumanMessage, jsTruthy, hm, hc, hemp]
    | some c =>
        by_cases hce : c = ""
        · have hq : ("" : String).isEmpty = true := rfl
          simp [buildHumanMessage, jsTruthy, hm, hc, hce, hemp, hq]
        · have hcemp : c.isEmpty = false := by
            cases hcc : c.isEmpty
            · rfl
            · exact absurd ((String.isEmpty_iff c).mp hcc) hce
          simp [buildHumanMessage, jsTruthy, hm, hc, hce, hemp, hcemp]
  · rfl

/-- Witness for `buildHumanMessage_top_message` at the scenario payload. -/
theorem buildHumanMessage_top_message_witness :
    invalidTypeJson.message = some "INVALID_TYPE" ∧ ("INVALID_TYPE" : String) ≠ "" ∧
    (buildHumanMessage invalidTypeJson =
        some (match invalidTypeJson.code with
              | some c => if c = "" then "INVALID_TYPE"
                          else "INVALID_TYPE" ++ " [" ++ c ++ "]"
              | none => "INVALID_TYPE") ∧
      errMessageOf (runSfJsonClose ["org", "list", "metadata-types"] (some 0)
          (some invalidTypeJson) "") = some "INVALID_TYPE [INVALID_TYPE]") :=
  ⟨rfl, by decide, buildHumanMessage_top_message invalidTypeJson "INVALID_TYPE" rfl (by decide)⟩

/-- Claim C5: a retrieval invocation that completes with exit code 0 and
internal status 0 but whose payload contains
`files:[{state:"Failed", error:"E1", fullName:"Foo", type:"ApexClass"}]`
passes `runSfJson` (the promise resolves with the payload) and then fails
the result inspection of `retrieveSelectedFile` with the first collected
problem string `"E1 [ApexClass Foo]"`, the full payload attached as
`rawJson`, despite the zero exit code. -/
theorem retrieve_failed_file_reports_problem :
    runSfJsonClose ["project", "retrieve", "start", "--metadata", "ApexClass:Foo"]
        (some 0) (some retrieveFailedJson) "" = .ok retrieveFailedJson ∧
    collectRetrieveProblems retrieveFailedJson = ["E1 [ApexClass Foo]"] ∧
    retrieveSelectedFileCheck retrieveFailedJson =
      .error { message := "E1 [ApexClass Foo]"
               codeStr := none, context := none, status := none
               exitCode := none, stderr := none, rawJson := some retrieveFailedJson } := by
  refine ⟨rfl, by decide, rfl⟩

/-- Claim C9 counterexample: for a payload with no top-level message whose
`result.messages` is the one-entry array `[{problem:""}]`, the problem field
is present, so the claim demands the result `""`; the source treats the
empty problem as falsy, falls to the join, and the entry (with no truthy
problem or message) stringifies to "[object Object]". -/
theorem buildHumanMessage_messages_counterexample :
    (buildHumanMessage
        { message := none, code := none, context := none, status := none
          exitCode := none
          resultMessages := .arr [{ fileName := none, problem := some "", message := none }]
          resultFiles := [] } =
      some "[object Object]") ∧
    (buildHumanMessageClaimedMsgs
        { message := none, code := none, context := none, status := none
          exitCode := none
          resultMessages := .arr [{ fileName := none, problem := some "", message := none }]
          resultFiles := [] } =
      some "") ∧
    ("[object Object]" : String) ≠ "" := by
  refine ⟨rfl, rfl, by decide⟩

/-- Claim C9 (amended): for every payload with a falsy top-level message
field, when `result.messages` is a non-empty array of objects the result is
the first entry's problem field when that field is a non-empty string; when
no entry has a non-empty problem field, the result is all entries' problem
(falling back to message, falling back to the object stringification
"[object Object]" — in both cases non-empty strings only) joined with "; ";
when `result.messages` is a string whose trimmed form is non-empty, the
result is that trimmed string. -/
theorem buildHumanMessage_messages_rules (j : SfJson)
    (hm : jsTruthy j.message = false) :
    (∀ first rest, j.resultMessages = .arr (first :: rest) →
      (jsTruthy first.problem = true →
        buildHumanMessage j = some (first.problem.getD "")) ∧
      ((first :: rest).all (fun e => !jsTruthy e.problem) = true →
        buildHumanMessage j = some (jsJoin "; " ((first :: rest).map entryFallback)))) ∧
    (∀ s, j.resultMessages = .str s → (jsTrim s).isEmpty = false →
      buildHumanMessage j = some (jsTrim s)) := by
  constructor
  · intro first rest harr
    constructor
    · intro hp
      simp [buildHumanMessage, hm, harr, hp]
    · intro hall
      have hfirst : jsTruthy first.problem = false := by
        have := List.all_eq_true.mp hall first (List.mem_cons_self first rest)
        simpa using this
      have hjoin :
          (jsJoin "; " (entryFallback first :: List.map entryFallback rest)).isEmpty = false := by
        cases hh : (jsJoin "; " (entryFallback first :: List.map entryFallback rest)).isEmpty
        · rfl
        · exact absurd ((String.isEmpty_iff _).mp hh)
            (jsJoin_ne_empty _ _ _ (entryFallback_ne_empty first))
      simp [buildHumanMessage, hm, harr, hfirst, hjoin]
  · intro s hstr hne
    simp [buildHumanMessage, hm, hstr, hne]

/-- Witness for `buildHumanMessage_messages_rules` at a concrete payload
whose messages array is `[{message:"m1"}]`. -/
theorem buildHumanMessage_messages_rules_witness :
    (jsTruthy
        ({ message := none, code := none, context := none, status := none
           exitCode := none
           resultMessages := .arr [{ fileName := none, problem := none, message := some "m1" }]
           resultFiles := [] } : SfJson).message = false) ∧
    ((∀ first rest,
        ({ message := none, code := none, context := none, status := none
           exitCode := none
           resultMessages := .arr [{ fileName := none, problem := none, message := some "m1" }]
           resultFiles := [] } : SfJson).resultMessages = .arr (first :: rest) →
        (jsTruthy first.problem = true →
          buildHumanMessage
              { message := none, code := none, context := none, status := none
                exitCode := none
                resultMessages := .arr [{ fileName := none, problem := none, message := some "m1" }]
                resultFiles := [] } = some (first.problem.getD "")) ∧
        ((first :: rest).all (fun e => !jsTruthy e.problem) = true →
          buildHumanMessage
              { message := none, code := none, context := none, status := none
                exitCode := none
                resultMessages := .arr [{ fileName := none, problem := none, message := some "m1" }]
                resultFiles := [] } =
            some (jsJoin "; " ((first :: rest).map entryFallback)))) ∧
      (∀ s,
        ({ message := none, code := none, context := none, status := none
           exitCode := none
           resultMessages := .arr [{ fileName := none, problem := none, message := some "m1" }]
           resultFiles := [] } : SfJson).resultMessages = .str s → (jsTrim s).isEmpty = false →
        buildHumanMessage
            { message := none, code := none, context := none, status := none
              exitCode := none
              resultMessages := .arr [{ fileName := none, problem := none, message := some "m1" }]
              resultFiles := [] } = some (jsTrim s))) :=
  ⟨rfl, buildHumanMessage_messages_rules _ rfl⟩

/-- Claim C10: the sanitization of `getMetadataItemsCachePath` rewrites every
non-alphanumeric character of the metadata type name to an underscore, so
the path derivation is not injective — the distinct type names "A-B" and
"A_B" map to the same cache file path under one org — and after saving
entries for both, the later write is the only on-disk value at that path
while the memory tier keeps the two keys distinct. -/
theorem itemsCachePath_collision :
    (∀ ty : String, (safeMetadataType ty).data =
        ty.data.map (fun c => if isAsciiAlnum c then c else '_')) ∧
    (("A-B" : String) ≠ "A_B" ∧
      getMetadataItemsCachePath "cache" "00Dxx" "A-B" =
        getMetadataItemsCachePath "cache" "00Dxx" "A_B") ∧
    (∀ (s : CacheState) (items1 items2 : List MetadataItem) (t1 d1 t2 d2 : Nat),
      mapGet (storeFetchedItems "00Dxx" "A_B" items2 t2 d2
          (storeFetchedItems "00Dxx" "A-B" items1 t1 d1 s)).diskFiles
          (getMetadataItemsCacheName "00Dxx" "A-B") =
        some (.itemsFile
          { orgId := "00Dxx", metadataType := "A_B", items := items2, ts := some d2 }) ∧
      mapGet (storeFetchedItems "00Dxx" "A_B" items2 t2 d2
          (storeFetchedItems "00Dxx" "A-B" items1 t1 d1 s)).metadataItemsCache
          ("00Dxx" ++ ":" ++ "A-B") =
        some { orgId := "00Dxx", metadataType := "A-B", items := items1, ts := some t1 } ∧
      mapGet (storeFetchedItems "00Dxx" "A_B" items2 t2 d2
          (storeFetchedItems "00Dxx" "A-B" items1 t1 d1 s)).metadataItemsCache
          ("00Dxx" ++ ":" ++ "A_B") =
        some { orgId := "00Dxx", metadataType := "A_B", items := items2, ts := some t2 } ∧
      ("00Dxx" ++ ":" ++ "A-B" : String) ≠ "00Dxx" ++ ":" ++ "A_B") := by
  refine ⟨fun ty => rfl, ⟨by decide, by decide⟩, ?_⟩
  intro s items1 items2 t1 d1 t2 d2
  have hname : getMetadataItemsCacheName "00Dxx" "A-B" =
      getMetadataItemsCacheName "00Dxx" "A_B" := by decide
  have hkeys : ("00Dxx" ++ ":" ++ "A-B" : String) ≠ "00Dxx" ++ ":" ++ "A_B" := by decide
  refine ⟨?_, ?_, ?_, hkeys⟩
  · show mapGet (mapSet (mapSet s.diskFiles (getMetadataItemsCacheName "00Dxx" "A-B")
        (.itemsFile { orgId := "00Dxx", metadataType := "A-B", items := items1, ts := some d1 }))
        (getMetadataItemsCacheName "00Dxx" "A_B")
        (.itemsFile { orgId := "00Dxx", metadataType := "A_B", items := items2, ts := some d2 }))
        (getMetadataItemsCacheName "00Dxx" "A-B") = _
    rw [hname]
    exact mapGet_set_self _ _ _
  · show mapGet (mapSet (mapSet s.metadataItemsCache ("00Dxx" ++ ":" ++ "A-B")
        { orgId := "00Dxx", metadataType := "A-B", items := items1, ts := some t1 })
        ("00Dxx" ++ ":" ++ "A_B")
        { orgId := "00Dxx", metadataType := "A_B", items := items2, ts := some t2 })
        ("00Dxx" ++ ":" ++ "A-B") = _
    rw [mapGet_set_ne _ _ _ _ hkeys]
    exact mapGet_set_self _ _ _
  · show mapGet (mapSet (mapSet s.metadataItemsCache ("00Dxx" ++ ":" ++ "A-B")
        { orgId := "00Dxx", metadataType := "A-B", items := items1, ts := some t1 })
        ("00Dxx" ++ ":" ++ "A_B")
        { orgId := "00Dxx", metadataType := "A_B", items := items2, ts := some t2 })
        ("00Dxx" ++ ":" ++ "A_B") = _
    exact mapGet_set_self _ _ _

/-- Claim C3: for any prior cache state, running `applyConfigSettings` with
caching disabled leaves both in-memory caches empty and leaves no cache file
of either partition (no file whose name is a type-catalog or item-list cache
name) in the cache directory, regardless of org. -/
theorem applyConfig_disable_clears_all (cfg : WorkspaceConfig) (s : CacheState)
    (h : cfg.enableCache = some false) :
    (applyConfigSettings cfg s).metadataTypesCache = none ∧
    (applyConfigSettings cfg s).metadataItemsCache = [] ∧
    ∀ f ∈ (applyConfigSettings cfg s).diskFiles, ¬ isCacheFileName f.1 := by
  have hcfg : cfg.enableCache.getD true = false := by rw [h]; rfl
  unfold applyConfigSettings
  rw [hcfg]
  simp only [Bool.false_eq_true, if_false]
  refine ⟨by trivial, by trivial, ?_⟩
  intro f hf hcache
  have hmem := List.mem_filter.mp hf
  have hstart := cacheName_startsWith f.1 hcache
  rw [hstart] at hmem
  exact absurd hmem.2 (by decide)

/-- Witness for `applyConfig_disable_clears_all` at a configuration with
caching off and the sample prior state. -/
theorem applyConfig_disable_clears_all_witness :
    ({ enableCache := some false, cacheTtlDays := some 7
       autoOpenAfterDownload := none } : WorkspaceConfig).enableCache = some false ∧
    ((applyConfigSettings
        { enableCache := some false, cacheTtlDays := some 7
          autoOpenAfterDownload := none } sampleCacheState).metadataTypesCache = none ∧
      (applyConfigSettings
        { enableCache := some false, cacheTtlDays := some 7
          autoOpenAfterDownload := none } sampleCacheState).metadataItemsCache = [] ∧
      ∀ f ∈ (applyConfigSettings
        { enableCache := some false, cacheTtlDays := some 7
          autoOpenAfterDownload := none } sampleCacheState).diskFiles,
        ¬ isCacheFileName f.1) :=
  ⟨rfl, applyConfig_disable_clears_all _ sampleCacheState rfl⟩

/-- Claim C6: `deleteItemsCache` for the current org removes exactly the
in-memory item-list entries whose org identity matches (every other org's
entry survives unchanged), and — on a directory of well-formed cache file
names — deletes exactly the disk files whose name carries that org's
item-list name start `metadata-items-<org>-`. -/
theorem deleteItemsCache_exact_frame (org : String) (s : CacheState)
    (hwf : ∀ f ∈ s.diskFiles, isCacheFileName f.1) :
    (∀ kv, kv ∈ (deleteItemsCache org s).metadataItemsCache ↔
      kv ∈ s.metadataItemsCache ∧ kv.2.orgId ≠ org) ∧
    (∀ f, f ∈ (deleteItemsCache org s).diskFiles ↔
      f ∈ s.diskFiles ∧ jsStartsWith f.1 (itemsCacheNameStart org) = false) := by
  constructor
  · intro kv
    simp [deleteItemsCache, List.mem_filter]
  · intro f
    constructor
    · intro hf
      have hmem := List.mem_filter.mp hf
      have hjson := cacheName_endsWith_json f.1 (hwf f hmem.1)
      refine ⟨hmem.1, ?_⟩
      have hp := hmem.2
      rw [hjson] at hp
      cases hq : jsStartsWith f.1 (itemsCacheNameStart org)
      · rfl
      · rw [hq] at hp
        exact absurd hp (by decide)
    · intro hf
      refine List.mem_filter.mpr ⟨hf.1, ?_⟩
      rw [hf.2]
      rfl

/-- Witness for `deleteItemsCache_exact_frame` at the C6 scenario: org
"00Dxx", disk files for types A and B under 00Dxx, memory entries for A
(00Dxx) and C (another org). -/
theorem deleteItemsCache_exact_frame_witness :
    (∀ f ∈ sampleCacheState.diskFiles, isCacheFileName f.1) ∧
    ((∀ kv, kv ∈ (deleteItemsCache "00Dxx" sampleCacheState).metadataItemsCache ↔
        kv ∈ sampleCacheState.metadataItemsCache ∧ kv.2.orgId ≠ "00Dxx") ∧
      (∀ f, f ∈ (deleteItemsCache "00Dxx" sampleCacheState).diskFiles ↔
        f ∈ sampleCacheState.diskFiles ∧
          jsStartsWith f.1 (itemsCacheNameStart "00Dxx") = false)) := by
  have hwf : ∀ f ∈ sampleCacheState.diskFiles, isCacheFileName f.1 := by
    intro f hf
    simp only [sampleCacheState, List.mem_cons, List.not_mem_nil, or_false] at hf
    rcases hf with rfl | rfl
    · exact Or.inr ⟨"00Dxx", "A", rfl⟩
    · exact Or.inr ⟨"00Dxx", "B", rfl⟩
  exact ⟨hwf, deleteItemsCache_exact_frame "00Dxx" sampleCacheState hwf⟩

/-- Claim C7: after `applyConfigSettings` the effective `TTL_MS` equals
`d` days in milliseconds where `d` clamps the configured `cacheTtlDays` to
[1, 30] (default 30 when unconfigured), and every subsequent freshness check
uses exactly that clamped value — the TTL is read at check time, not baked
into stored entries. -/
theorem ttl_clamp_effective (cfg : WorkspaceConfig) (s : CacheState) :
    (applyConfigSettings cfg s).ttlMs =
      min 30 (max 1 (cfg.cacheTtlDays.getD 30)) * 86400000 ∧
    (1 ≤ min 30 (max 1 (cfg.cacheTtlDays.getD 30)) ∧
      min 30 (max 1 (cfg.cacheTtlDays.getD 30)) ≤ 30) ∧
    (cfg.cacheTtlDays = none → (applyConfigSettings cfg s).ttlMs = 30 * 86400000) ∧
    (∀ ts now, isFresh (applyConfigSettings cfg s).ttlMs now ts =
      isFresh (min 30 (max 1 (cfg.cacheTtlDays.getD 30)) * 86400000) now ts) := by
  have h1 : (applyConfigSettings cfg s).ttlMs =
      min 30 (max 1 (cfg.cacheTtlDays.getD 30)) * 86400000 := by
    unfold applyConfigSettings
    cases cfg.enableCache.getD true
    · rfl
    · rfl
  refine ⟨h1, ⟨le_min (by norm_num) (le_max_left 1 _), min_le_left _ _⟩, ?_, ?_⟩
  · intro hnone
    rw [h1, hnone]
    rfl
  · intro ts now
    rw [h1]

/-- Witness for `ttl_clamp_effective` at an unconfigured TTL: the default 30
days applies. -/
theorem ttl_clamp_effective_witness :
    ({ enableCache := none, cacheTtlDays := none
       autoOpenAfterDownload := none } : WorkspaceConfig).cacheTtlDays = none ∧
    (applyConfigSettings
        { enableCache := none, cacheTtlDays := none, autoOpenAfterDownload := none }
        sampleCacheState).ttlMs = 30 * 86400000 :=
  ⟨rfl, (ttl_clamp_effective
      { enableCache := none, cacheTtlDays := none, autoOpenAfterDownload := none }
      sampleCacheState).2.2.1 rfl⟩

/-- Claim C8 counterexample: the in-flight lookup of extension.ts line 502 is
not guarded by the caching flag, so with caching disabled and a leftover
in-flight promise for the key (registered while caching was still enabled),
`getMetadataItems` returns that existing promise instead of always starting
its own fetch — the claim's "coalescing is bypassed entirely" is false. -/
theorem coalescing_disabled_counterexample :
    ¬ coalescingBypassedClaim ∧
    coalesceEntry false (some "00Dxx:ApexClass") [("00Dxx:ApexClass", 7)] 9 =
      (CoalesceOutcome.joined 7, [("00Dxx:ApexClass", 7)]) := by
  constructor
  · intro h
    have hc := h (some "00Dxx:ApexClass") [("00Dxx:ApexClass", 7)] 9
    rw [show coalesceEntry false (some "00Dxx:ApexClass") [("00Dxx:ApexClass", 7)] 9 =
        (CoalesceOutcome.joined 7, [("00Dxx:ApexClass", 7)]) from rfl] at hc
    exact absurd hc (by decide)
  · rfl

/-- Claim C8 (amended): when caching is disabled a `getMetadataItems` call
never registers an in-flight promise (the map is returned unchanged on every
path), and it starts its own fetch exactly when no in-flight promise for its
key exists; if an in-flight promise for the key is still registered (left
over from when caching was enabled), the call returns that promise. -/
theorem coalescing_disabled_behavior (cacheKey : Option String)
    (inflight : List (String × Nat)) (freshId : Nat) :
    ((coalesceEntry false cacheKey inflight freshId).2 = inflight) ∧
    (∀ k, cacheKey = some k → mapGet inflight k = none →
      (coalesceEntry false cacheKey inflight freshId).1 =
        CoalesceOutcome.started freshId) ∧
    (∀ k p, cacheKey = some k → mapGet inflight k = some p →
      (coalesceEntry false cacheKey inflight freshId).1 = CoalesceOutcome.joined p) ∧
    (cacheKey = none →
      (coalesceEntry false cacheKey inflight freshId).1 =
        CoalesceOutcome.started freshId) := by
  refine ⟨?_, ?_, ?_, ?_⟩
  · cases cacheKey with
    | none => rfl
    | some k =>
        cases hg : mapGet inflight k with
        | none => simp [coalesceEntry, hg]
        | some p => simp [coalesceEntry, hg]
  · intro k hk hg
    subst hk
    simp [coalesceEntry, hg]
  · intro k p hk hg
    subst hk
    simp [coalesceEntry, hg]
  · intro hk
    subst hk
    rfl

/-- Witness for `coalescing_disabled_behavior` at a key with a leftover
in-flight promise. -/
theorem coalescing_disabled_behavior_witness :
    (some "k" = some "k") ∧ mapGet [("k", 7)] "k" = some 7 ∧
    ((coalesceEntry false (some "k") [("k", 7)] 9).2 = [("k", 7)]) ∧
    ((coalesceEntry false (some "k") [("k", 7)] 9).1 = CoalesceOutcome.joined 7) :=
  ⟨rfl, by decide,
    (coalescing_disabled_behavior (some "k") [("k", 7)] 9).1,
    (coalescing_disabled_behavior (some "k") [("k", 7)] 9).2.2.1 "k" 7 rfl (by decide)⟩

theorem coTrace_append_split (l1 l2 : List CoEv) (s u : CoSt)
    (h : CoTrace s (l1 ++ l2) u) : ∃ m, CoTrace s l1 m ∧ CoTrace m l2 u := by
  induction l1 generalizing s with
  | nil => exact ⟨s, CoTrace.nil s, h⟩
  | cons e es ih =>
      cases h with
      | cons _ t _ _ _ h1 h2 =>
          obtain ⟨m, hm1, hm2⟩ := ih t h2
          exact ⟨m, CoTrace.cons _ _ _ _ _ h1 hm1, hm2⟩

theorem coInv_init : CoInv coInit := by
  refine ⟨?_, ?_, ?_, ?_, ?_⟩
  · intro p r hp; exact absurd hp (by simp [coInit])
  · intro c p hp; exact absurd hp (by simp [coInit])
  · intro p hp; exact absurd hp (by simp [coInit])
  · intro p hp; exact absurd hp (by simp [coInit])
  · intro c p hp; exact absurd hp (by simp [coInit])


theorem coInv_step (s t : CoSt) (e : CoEv) (hstep : CoStep s e t) (hinv : CoInv s) :
    CoInv t := by
  obtain ⟨h1, h2, h3, h4, h5⟩ := hinv
  cases hstep with
  | join c p h => exact ⟨h1, h2, h3, h4, h5⟩
  | spawn c h =>
      refine ⟨?_, ?_, ?_, ?_, ?_⟩ <;> dsimp only
      · intro p r hp
        exact Nat.lt_succ_of_lt (h1 p r hp)
      · intro c' p hp
        by_cases hps : p = s.spawned
        · rw [hps]; exact Nat.lt_succ_self _
        · rw [Function.update_noteq hps _ _] at hp
          exact Nat.lt_succ_of_lt (h2 c' p hp)
      · intro p hp
        have hps : p = s.spawned := (Option.some.inj hp).symm
        rw [hps]
        exact Nat.lt_succ_self _
      · intro p hp
        rcases Nat.lt_succ_iff_lt_or_eq.mp hp with hlt | heq
        · rcases h4 p hlt with hsp | hip
          · exact Or.inl hsp
          · rw [h] at hip
            exact absurd hip (by simp)
        · right
          rw [heq]
      · intro c' p hc' hd' hs'
        by_cases hps : p = s.spawned
        · exfalso
          rw [hps] at hs'
          rcases ho : s.settled s.spawned with _ | r
          · rw [ho] at hs'
            exact absurd hs' (by simp)
          · exact absurd (h1 _ _ ho) (Nat.lt_irrefl _)
        · rw [Function.update_noteq hps _ _] at hc'
          have hip := h5 c' p hc' hd' hs'
          rw [h] at hip
          exact absurd hip (by simp)
  | settle p r hp hu =>
      refine ⟨?_, h2, h3, ?_, ?_⟩ <;> dsimp only
      · intro q rq hq
        by_cases hqp : q = p
        · rw [hqp]; exact hp
        · rw [Function.update_noteq hqp _ _] at hq
          exact h1 q rq hq
      · intro q hq
        by_cases hqp : q = p
        · left
          rw [hqp, Function.update_same]
          rfl
        · rcases h4 q hq with hsq | hiq
          · left
            rw [Function.update_noteq hqp _ _]
            exact hsq
          · right
            exact hiq
      · intro c' q hc' hd' hs'
        by_cases hqp : q = p
        · rw [hqp]
          rcases h4 p hp with hsome | hip
          · rw [hu] at hsome
            exact absurd hsome (by simp)
          · exact hip
        · rw [Function.update_noteq hqp _ _] at hs'
          exact h5 c' q hc' hd' hs'
  | cleanup c p hc hd hs =>
      have hinf : s.inflight = some p := h5 c p hc hd hs
      refine ⟨h1, h2, ?_, ?_, ?_⟩ <;> dsimp only
      · intro q hq
        exact absurd hq (by simp)
      · intro q hq
        left
        rcases h4 q hq with hsq | hiq
        · exact hsq
        · rw [hinf] at hiq
          have hqp : q = p := (Option.some.inj hiq).symm
          rw [hqp]
          exact hs
      · intro c' q hc' hd' hs'
        by_cases hcc : c' = c
        · exfalso
          rw [hcc, Function.update_same] at hd'
          exact absurd hd' (by simp)
        · rw [Function.update_noteq hcc _ _] at hd'
          have hq := h5 c' q hc' hd' hs'
          rw [hinf] at hq
          have hqp : p = q := Option.some.inj hq
          exfalso
          apply hcc
          rw [← hqp] at hc'
          rw [hc'] at hc
          exact Option.some.inj hc

theorem coInv_trace (s u : CoSt) (es : List CoEv) (h : CoTrace s es u)
    (hs : CoInv s) : CoInv u := by
  induction h with
  | nil => exact hs
  | cons s t u e es h1 h2 ih => exact ih (coInv_step _ _ _ h1 hs)

theorem coCalls_join (cs : List Nat) (s0 s1 : CoSt)
    (h : CoTrace s0 (cs.map CoEv.call) s1) (hin : s0.inflight = some 0) :
    s1.inflight = some 0 ∧ s1.spawned = s0.spawned ∧ s1.settled = s0.settled ∧
    (∀ c, s1.callerPromise c = some 0 ∨ s1.callerPromise c = s0.callerPromise c) ∧
    (∀ c, c ∈ cs → s1.callerPromise c = some 0) := by
  induction cs generalizing s0 with
  | nil =>
      cases h with
      | nil => exact ⟨hin, rfl, rfl, fun c => Or.inr rfl, by simp⟩
  | cons c0 cs ih =>
      rw [List.map_cons] at h
      cases h with
      | cons _ t _ _ _ h1 h2 =>
          cases h1 with
          | join _ p hp =>
              rw [hin] at hp
              have hp0 : p = 0 := (Option.some.inj hp).symm
              obtain ⟨i1, i2, i3, i4, i5⟩ := ih _ h2 hin
              refine ⟨i1, i2, i3, ?_, ?_⟩
              · intro c'
                rcases i4 c' with hcp | hcp
                · exact Or.inl hcp
                · by_cases hcc : c' = c0
                  · left
                    rw [hcp, hcc]
                    simp [Function.update_same, hp0]
                  · right
                    rw [hcp]
                    simp [Function.update_noteq hcc]
              · intro c' hc'
                rcases List.mem_cons.mp hc' with rfl | hmem
                · rcases i4 c' with hcp | hcp
                  · exact hcp
                  · rw [hcp]
                    simp [Function.update_same, hp0]
                · exact i5 c' hmem
          | spawn _ hpn =>
              rw [hin] at hpn
              exact absurd hpn (by simp)

/-- Claim C1: with caching enabled, N concurrent `getMetadataItems` calls for
one item-list cache key that all reach the coalescing block while no fresh
cache entry exists (all `call` events precede the settlement) issue exactly
one external CLI invocation and every caller receives the identical resolved
item list or the identical rejection; moreover, along any run of the
coalescer, never more than one invocation per key is in flight at any
instant (any two spawned-but-unsettled promises coincide). -/
theorem coalescing_exactly_once :
    (∀ (cs : List Nat) (r : FetchResult) (s : CoSt),
      cs ≠ [] →
      CoTrace coInit (cs.map CoEv.call ++ [CoEv.settle r]) s →
      s.spawned = 1 ∧ ∀ c ∈ cs, received s c = some r) ∧
    (∀ (es : List CoEv) (s : CoSt), CoTrace coInit es s →
      ∀ p q, p < s.spawned → s.settled p = none → q < s.spawned →
        s.settled q = none → p = q) := by
  constructor
  · intro cs r s hne htr
    obtain ⟨m, hm1, hm2⟩ := coTrace_append_split _ _ _ _ htr
    cases cs with
    | nil => exact absurd rfl hne
    | cons c0 rest =>
        rw [List.map_cons] at hm1
        cases hm1 with
        | cons _ t _ _ _ h1 h2 =>
            cases h1 with
            | join _ p hp => exact absurd hp (by simp [coInit])
            | spawn _ hpn =>
                obtain ⟨i1, i2, i3, i4, i5⟩ := coCalls_join rest _ m h2 rfl
                cases hm2 with
                | cons _ t2 _ _ _ hset hnil =>
                    cases hset with
                    | settle p _ hps hu =>
                        cases hnil with
                        | nil =>
                            have hsp : m.spawned = 1 := by rw [i2]; rfl
                            have hp0 : p = 0 := by
                              rw [hsp] at hps
                              omega
                            have hcall : ∀ c, c ∈ c0 :: rest →
                                m.callerPromise c = some 0 := by
                              intro c hc
                              rcases List.mem_cons.mp hc with rfl | hmem
                              · rcases i4 c with hcp | hcp
                                · exact hcp
                                · rw [hcp]
                                  simp [Function.update_same, coInit]
                              · exact i5 c hmem
                            subst hp0
                            refine ⟨hsp, ?_⟩
                            intro c hc
                            simp [received, hcall c hc, Function.update_same]
  · intro es s htr p q hp hsp hq hsq
    obtain ⟨g1, g2, g3, g4, g5⟩ := coInv_trace coInit s es htr coInv_init
    rcases g4 p hp with hh | hh
    · rw [hsp] at hh
      exact absurd hh (by simp)
    · rcases g4 q hq with hh' | hh'
      · rw [hsq] at hh'
        exact absurd hh' (by simp)
      · rw [hh] at hh'
        exact Option.some.inj hh'

/-- Witness for `coalescing_exactly_once`: two concrete callers coalesce on
one invocation that settles with a rejection, and both observe it. -/
theorem coalescing_exactly_once_witness :
    (([0, 1] : List Nat) ≠ []) ∧
    CoTrace coInit ([0, 1].map CoEv.call ++ [CoEv.settle (FetchResult.err "boom")])
      coWitnessEnd ∧
    (coWitnessEnd.spawned = 1 ∧
      ∀ c ∈ ([0, 1] : List Nat), received coWitnessEnd c = some (FetchResult.err "boom")) := by
  have htr : CoTrace coInit
      ([0, 1].map CoEv.call ++ [CoEv.settle (FetchResult.err "boom")]) coWitnessEnd := by
    refine CoTrace.cons _ _ _ _ _ (CoStep.spawn coInit 0 rfl) ?_
    refine CoTrace.cons _ _ _ _ _ (CoStep.join _ 1 0 rfl) ?_
    refine CoTrace.cons _ _ _ _ _
      (CoStep.settle _ 0 (FetchResult.err "boom") (by decide) rfl) ?_
    exact CoTrace.nil _
  exact ⟨by simp, htr, coalescing_exactly_once.1 [0, 1] _ _ (by simp) htr⟩
